import Mathlib

/-!
# Verification of the op-signer authorization policy and proxy subsystem

Shallow embedding of the op-signer service (`op-signer/service/*.go`):
the authorization policy store (`config.go`), the signing pipeline
(`service.go`), the router-side connection registry (`proxy_ws.go`),
and the signer-side reconnecting proxy client (`proxy.go`).

Go machine values are modelled as follows: `common.Address` values are
abstract `Nat` (equality in the model is byte-for-byte equality of the
20-byte value), `*big.Int` values that the code only ever uses as
non-negative quantities are `Nat`, strings are Lean `String`, pointers
that may be nil are `Option`, and Go functions that may return an error
are `Except String` valued.  A nil-pointer dereference (a Go panic) is
modelled as a distinguished `crashed` outcome.
-/

namespace OpSigner

/-! ## Hex decoding (go-ethereum `common/hexutil`)

`ReadConfig` validates `toAddresses` with `hexutil.Decode` and
`maxValue` with `hexutil.DecodeBig`; `AuthConfig.MaxValueToInt` uses
`hexutil.MustDecodeBig`, which panics on a string `DecodeBig` rejects.
These are faithful models of the go-ethereum decoders. -/

def isHexDigitChar (c : Char) : Bool :=
  ('0' ≤ c && c ≤ '9') || ('a' ≤ c && c ≤ 'f') || ('A' ≤ c && c ≤ 'F')

def hexDigitVal (c : Char) : Nat :=
  if '0' ≤ c && c ≤ '9' then c.toNat - '0'.toNat
  else if 'a' ≤ c && c ≤ 'f' then c.toNat - 'a'.toNat + 10
  else if 'A' ≤ c && c ≤ 'F' then c.toNat - 'A'.toNat + 10
  else 0

/-- Model of has0xPrefix: Go checks `len(input) >= 2 && input[0] == '0' &&
(input[1] == 'x' || input[1] == 'X')`. -/
def startsWith0x : List Char → Bool
  | '0' :: c :: _ => c == 'x' || c == 'X'
  | _ => false

def hexNibblesToBytes : List Char → List Nat
  | hi :: lo :: rest => (16 * hexDigitVal hi + hexDigitVal lo) :: hexNibblesToBytes rest
  | _ => []

/-- Model of `hexutil.Decode`: requires a `0x` prefix, an even number of hex
digits, and only hex digits; returns the byte string. -/
def decodeHex (s : String) : Option (List Nat) :=
  match s.data with
  | [] => none
  | _ :: _ =>
    if startsWith0x s.data then
      let raw := s.data.drop 2
      if raw.length % 2 = 1 then none
      else if raw.all isHexDigitChar then some (hexNibblesToBytes raw)
      else none
    else none

/-- Model of `hexutil.DecodeBig`: requires a `0x` prefix, at least one digit, no
leading zero (unless the number is exactly one digit), at most 64
digits (256 bits), and only hex digits; returns the value. -/
def decodeBig (s : String) : Option Nat :=
  match s.data with
  | [] => none
  | _ :: _ =>
    if startsWith0x s.data then
      let raw := s.data.drop 2
      if raw.length = 0 then none
      else if raw.length > 1 && raw.headD '0' == '0' then none
      else if raw.length > 64 then none
      else if raw.all isHexDigitChar then
        some (raw.foldl (fun acc c => 16 * acc + hexDigitVal c) 0)
      else none
    else none

/-! ## ASCII case folding (`strings.EqualFold` on hex-string data)

`containsNormalized` (service.go) compares strings with
`strings.EqualFold`.  The strings it is applied to are hex address
strings, so the ASCII fold is the operative fragment. -/

def asciiLower (c : Char) : Char :=
  if 'A' ≤ c && c ≤ 'Z' then Char.ofNat (c.toNat + 32) else c

def lowerStr (s : String) : String :=
  ⟨s.data.map asciiLower⟩

def eqFold (a b : String) : Bool :=
  lowerStr a == lowerStr b

/-- Model of `containsNormalized` (service.go:75-82): membership up to
`strings.EqualFold`. -/
def containsNormalized (l : List String) (e : String) : Bool :=
  l.any (fun a => eqFold a e)

/-! ## Policy store data model (`config.go`) -/

/-- Model of `AuthConfig` (config.go): one policy entry. -/
structure AuthConfig where
  clientName : String
  keyName : String
  chainID : Nat
  fromAddress : Nat
  toAddresses : List String
  maxValue : String
deriving Repr, DecidableEq

/-- Model of `AuthConfig.MaxValueToInt` (config.go:28-30): `hexutil.MustDecodeBig`;
`none` models the panic on an undecodable string. -/
def AuthConfig.maxValueToInt (c : AuthConfig) : Option Nat :=
  decodeBig c.maxValue

/-- Model of `ProxyConfig` (config.go). -/
structure ProxyConfig where
  proxyEndpoint : String
  enable : Bool
deriving Repr, DecidableEq

/-- Model of `SignerServiceConfig` (config.go). -/
structure SignerServiceConfig where
  auth : List AuthConfig
  proxy : List ProxyConfig
deriving Repr, DecidableEq

/-! ## Policy lookup (`GetAuthConfigForClient`, config.go:75-90) -/

/-- The skip condition inside the scan loop of
`GetAuthConfigForClient`: `fromAddress != nil && *fromAddress !=
ac.FromAddress` (config.go:82). -/
def skipEntry (fromAddress : Option Nat) (ac : AuthConfig) : Bool :=
  match fromAddress with
  | some a => a != ac.fromAddress
  | none => false

/-- The scan loop of `GetAuthConfigForClient`: an entry whose
`ClientName` matches is skipped (`continue`) when a `fromAddress` was
supplied and differs from the entry's; otherwise it is returned. -/
def findAuth (clientName : String) (fromAddress : Option Nat) : List AuthConfig → Except String AuthConfig
  | [] => Except.error ("client " ++ clientName ++ " is not authorized to use any keys")
  | ac :: rest =>
    if ac.clientName = clientName then
      if skipEntry fromAddress ac then findAuth clientName fromAddress rest
      else Except.ok ac
    else findAuth clientName fromAddress rest

/-- Model of `GetAuthConfigForClient` (config.go:75-90). The Go method has a
value receiver and only reads `s.Auth`, so it cannot mutate the table;
the model is accordingly a pure function of the table. -/
def getAuthConfigForClient (s : SignerServiceConfig) (clientName : String) (fromAddress : Option Nat) : Except String AuthConfig :=
  if clientName = "" then Except.error "client name is empty"
  else findAuth clientName fromAddress s.auth

/-- Spec-side reading of the lookup (spec §4.1 and §8): the first entry
whose name matches exactly and, when an address is given, whose
`fromAddress` equals it exactly. -/
def lookupFirstMatch (s : SignerServiceConfig) (clientName : String) (fromAddress : Option Nat) : Option AuthConfig :=
  if clientName = "" then none
  else s.auth.find? (fun ac => ac.clientName == clientName && fromAddress.all (fun a => a == ac.fromAddress))

theorem findAuth_eq_find? (clientName : String) (fromAddress : Option Nat) (l : List AuthConfig) :
    (findAuth clientName fromAddress l).toOption =
      l.find? (fun ac => ac.clientName == clientName && fromAddress.all (fun a => a == ac.fromAddress)) := by
  induction l with
  | nil => rfl
  | cons ac rest ih =>
    by_cases hname : ac.clientName = clientName
    · cases fromAddress with
      | none =>
        simp [findAuth, List.find?, hname, skipEntry, Except.toOption]
      | some a =>
        by_cases haddr : a = ac.fromAddress
        · simp [findAuth, List.find?, hname, haddr, skipEntry, Except.toOption]
        · have hbeq : (a == ac.fromAddress) = false := by simp [haddr]
          simpa [findAuth, List.find?, hname, haddr, hbeq, skipEntry, Except.toOption] using ih
    · have hbeq : (ac.clientName == clientName) = false := by
        simp [hname]
      simp [findAuth, List.find?, hname, hbeq, ih]

/-- C1. `GetAuthConfigForClient` returns the first entry of the
policy table whose `ClientName` equals `clientName` exactly
(case-sensitively) and, when `fromAddress` is non-nil, whose
`FromAddress` equals `*fromAddress` exactly; it returns an error
(`NotAuthorized`, surfaced by the callers as a 403) precisely when
`clientName` is empty or no entry matches.  The function is pure, so
the table is never mutated. -/
theorem getAuthConfigForClient_first_match (s : SignerServiceConfig) (clientName : String) (fromAddress : Option Nat) :
    (getAuthConfigForClient s clientName fromAddress).toOption =
      lookupFirstMatch s clientName fromAddress := by
  by_cases h : clientName = ""
  · simp [getAuthConfigForClient, lookupFirstMatch, h, Except.toOption]
  · simp [getAuthConfigForClient, lookupFirstMatch, h, findAuth_eq_find?]

/-! ## Signing pipeline (`service.go`)

`EthService.SignTransaction` (service.go:85-197) and
`OpsignerSerivce.SignBlockPayload` (service.go:199-265).  The parts of
the pipeline that live outside this repository are abstracted as
oracle parameters: `checkOk` is the outcome of `args.Check()`
(op-service), `proxyAvail` is whether `s.pc.GetClient()` succeeds, and
the remainder of the transaction pipeline after the authorization
checks (digest computation, `SignDigest`, signature attachment, sender
recovery, serialization) is the `RestOutcome` oracle — by the source,
none of those later steps can return an `UnauthorizedTransactionError`.

A Prometheus counter increment `MetricSignTransactionTotal.With(labels).Inc()`
is modelled as one `(client, status, error)` triple appended to the
increment list; the Go `defer` registered at service.go:109-111 (resp.
220-222) runs on every exit from the function after that point,
including panics, which is why the `crashed` outcomes still carry one
increment. -/

/-- The possible outcomes of the transaction pipeline after the
per-entry authorization checks (service.go:126-196): each constructor
is one of the remaining `return` sites. -/
inductive RestOutcome where
  | txDataError
  | signError
  | withSigError
  | senderRecoverError
  | senderMismatch
  | marshalError
  | success
deriving Repr, DecidableEq

/-- The `labels["error"]` value each late-pipeline outcome sets before
the deferred counter increment fires (service.go:128-165). -/
def restLabel : RestOutcome → String
  | RestOutcome.txDataError => "transaction_args_error"
  | RestOutcome.signError => "sign_error"
  | RestOutcome.withSigError => "invalid_transaction_error"
  | RestOutcome.senderRecoverError => "sign_error"
  | RestOutcome.senderMismatch => "sign_error"
  | RestOutcome.marshalError => "transaction_marshal_error"
  | RestOutcome.success => ""

/-- The fields of `signer.TransactionArgs` the authorization checks
read: `args.To.Hex()` (an optional hex string; `none` models a nil
`To` pointer) and `args.Value.ToInt()`. -/
structure TxArgs where
  toHex : Option String
  value : Nat
deriving Repr, DecidableEq

inductive TxResult where
  | forbidden
  | proxied
  | invalidArgs
  | unauthorizedTx (msg : String)
  | crashed
  | restFailed (r : RestOutcome)
  | signedTx
deriving Repr, DecidableEq

/-- One Prometheus increment: `(client, status, error)` label values. -/
abbrev MetricInc := String × String × String

/-- The tail of `SignTransaction` from service.go:126 on, collapsed to
the `RestOutcome` oracle together with the label values each exit
sets. -/
def signTxRest (clientName : String) (rest : RestOutcome) : TxResult × List MetricInc :=
  if rest = RestOutcome.success then (TxResult.signedTx, [(clientName, "success", "")])
  else (TxResult.restFailed rest, [(clientName, "error", restLabel rest)])

/-- The `maxValue` check of `SignTransaction` (service.go:122-124):
`len(authConfig.MaxValue) > 0 && args.Value.ToInt().Cmp(authConfig.MaxValueToInt()) > 0`.
`MaxValueToInt` is `MustDecodeBig`, so an undecodable non-empty
`maxValue` is a panic (`crashed`). -/
def signTxValueCheck (authConfig : AuthConfig) (clientName : String) (args : TxArgs) (rest : RestOutcome) : TxResult × List MetricInc :=
  if authConfig.maxValue.length > 0 then
    match authConfig.maxValueToInt with
    | none => (TxResult.crashed, [(clientName, "error", "")])
    | some mv =>
      if mv < args.value then (TxResult.unauthorizedTx "value exceeds maximum", [(clientName, "error", "")])
      else signTxRest clientName rest
  else signTxRest clientName rest

/-- The `toAddresses` check of `SignTransaction` (service.go:119-121):
`len(authConfig.ToAddresses) > 0 && !containsNormalized(authConfig.ToAddresses, args.To.Hex())`.
Go's `&&` short-circuits, so a nil `To` is only dereferenced (and only
panics) when the allowlist is non-empty. -/
def signTxToCheck (authConfig : AuthConfig) (clientName : String) (args : TxArgs) (rest : RestOutcome) : TxResult × List MetricInc :=
  if authConfig.toAddresses.length > 0 then
    match args.toHex with
    | none => (TxResult.crashed, [(clientName, "error", "")])
    | some t =>
      if !containsNormalized authConfig.toAddresses t then
        (TxResult.unauthorizedTx "to address not authorized", [(clientName, "error", "")])
      else signTxValueCheck authConfig clientName args rest
  else signTxValueCheck authConfig clientName args rest

/-- Model of `EthService.SignTransaction` (service.go:85-197), from the policy
gate on.  Note the order of the source: the policy gate (line 95) and
the proxy-forwarding branch (lines 101-106) both return *before* the
deferred metric increment is registered (lines 108-111). -/
def signTransaction (cfg : SignerServiceConfig) (clientName : String) (proxyAvail : Bool) (args : TxArgs) (checkOk : Bool) (rest : RestOutcome) : TxResult × List MetricInc :=
  match getAuthConfigForClient cfg clientName none with
  | Except.error _ => (TxResult.forbidden, [])
  | Except.ok authConfig =>
    if proxyAvail then (TxResult.proxied, [])
    else if !checkOk then (TxResult.invalidArgs, [(clientName, "error", "invalid_transaction")])
    else signTxToCheck authConfig clientName args rest

/-- Arguments of `SignBlockPayload`: it reads `args.SenderAddress`
(optional address) and `args.ChainID` (optional big int); `none`
models a nil pointer. -/
structure BlockArgs where
  sender : Option Nat
  chainID : Option Nat
deriving Repr, DecidableEq

inductive BlockResult where
  | forbidden
  | proxied
  | invalidPayload
  | unauthorizedSender
  | unauthorizedChain
  | hashError
  | signFailed
  | signedPayload (key : String)
  | crashed
deriving Repr, DecidableEq

/-- The outcomes in which `provider.SignDigest` was invoked
(service.go:250): the call either failed (`signFailed`) or returned a
signature (`signedPayload`). -/
def reachedSignDigest : BlockResult → Bool
  | BlockResult.signFailed => true
  | BlockResult.signedPayload _ => true
  | _ => false

/-- Model of `OpsignerSerivce.SignBlockPayload` (service.go:199-265).  `hashOk`
abstracts `args.ToSigningHash()` and `signOk` abstracts
`provider.SignDigest`.  The lookup passes `args.SenderAddress` through
to `GetAuthConfigForClient`; the sender and chain-ID comparisons
dereference `args.SenderAddress` and `args.ChainID` (lines 230, 237),
so a nil pointer there is a panic (`crashed`). -/
def signBlockPayload (cfg : SignerServiceConfig) (clientName : String) (proxyAvail : Bool) (args : BlockArgs) (checkOk : Bool) (hashOk : Bool) (signOk : Bool) : BlockResult × List MetricInc :=
  match getAuthConfigForClient cfg clientName args.sender with
  | Except.error _ => (BlockResult.forbidden, [])
  | Except.ok authConfig =>
    if proxyAvail then (BlockResult.proxied, [])
    else if !checkOk then (BlockResult.invalidPayload, [(clientName, "error", "invalid_blockPayload")])
    else
      match args.sender with
      | none => (BlockResult.crashed, [(clientName, "error", "")])
      | some a =>
        if a ≠ authConfig.fromAddress then
          (BlockResult.unauthorizedSender, [(clientName, "error", "sign_error")])
        else
          match args.chainID with
          | none => (BlockResult.crashed, [(clientName, "error", "")])
          | some cid =>
            if cid ≠ authConfig.chainID then
              (BlockResult.unauthorizedChain, [(clientName, "error", "sign_error")])
            else if !hashOk then (BlockResult.hashError, [(clientName, "error", "invalid_blockPayload")])
            else if !signOk then (BlockResult.signFailed, [(clientName, "error", "sign_error")])
            else (BlockResult.signedPayload authConfig.keyName, [(clientName, "success", "")])

/-! ## Helper lemmas about the transaction pipeline -/

theorem strLengthPos (s : String) : (0 < s.length) ↔ s ≠ "" := by
  constructor
  · intro hpos h
    rw [h] at hpos
    simp at hpos
  · intro h
    cases s with
    | mk data =>
      cases data with
      | nil => exact absurd rfl h
      | cons c cs => simp [String.length]

theorem signTxRest_fst_ne_unauthorized (c : String) (r : RestOutcome) (msg : String) :
    (signTxRest c r).1 ≠ TxResult.unauthorizedTx msg := by
  unfold signTxRest
  split <;> simp

theorem signTxValueCheck_unauthorized_iff (authConfig : AuthConfig) (c : String) (args : TxArgs) (rest : RestOutcome) (mv : Nat)
    (hmv : authConfig.maxValue = "" ∨ decodeBig authConfig.maxValue = some mv) :
    (∃ msg, (signTxValueCheck authConfig c args rest).1 = TxResult.unauthorizedTx msg) ↔
      (authConfig.maxValue ≠ "" ∧ mv < args.value) := by
  by_cases hempty : authConfig.maxValue = ""
  · have hlen : ¬ (0 < authConfig.maxValue.length) := by
      simp [hempty]
    constructor
    · intro ⟨msg, hmsg⟩
      exact absurd hmsg (by simp [signTxValueCheck, hlen] at hlen ⊢; exact signTxRest_fst_ne_unauthorized c rest msg)
    · intro ⟨h1, _⟩
      exact absurd hempty h1
  · have hdec : decodeBig authConfig.maxValue = some mv := hmv.resolve_left hempty
    have hlen : 0 < authConfig.maxValue.length := (strLengthPos _).mpr hempty
    by_cases hv : mv < args.value
    · constructor
      · intro _
        exact ⟨hempty, hv⟩
      · intro _
        refine ⟨"value exceeds maximum", ?_⟩
        simp [signTxValueCheck, hlen, AuthConfig.maxValueToInt, hdec, hv]
    · constructor
      · intro ⟨msg, hmsg⟩
        rw [show (signTxValueCheck authConfig c args rest) = signTxRest c rest by
              simp [signTxValueCheck, hlen, AuthConfig.maxValueToInt, hdec, hv]] at hmsg
        exact absurd hmsg (signTxRest_fst_ne_unauthorized c rest msg)
      · intro ⟨_, h2⟩
        exact absurd h2 hv

theorem signTxToCheck_unauthorized_iff (authConfig : AuthConfig) (c : String) (args : TxArgs) (rest : RestOutcome) (t : String) (mv : Nat)
    (hto : args.toHex = some t)
    (hmv : authConfig.maxValue = "" ∨ decodeBig authConfig.maxValue = some mv) :
    (∃ msg, (signTxToCheck authConfig c args rest).1 = TxResult.unauthorizedTx msg) ↔
      ((authConfig.toAddresses ≠ [] ∧ containsNormalized authConfig.toAddresses t = false) ∨
       (authConfig.maxValue ≠ "" ∧ mv < args.value)) := by
  by_cases hta : authConfig.toAddresses = []
  · have hlen : ¬ (0 < authConfig.toAddresses.length) := by simp [hta]
    rw [show signTxToCheck authConfig c args rest = signTxValueCheck authConfig c args rest by
          simp [signTxToCheck, hlen]]
    rw [signTxValueCheck_unauthorized_iff authConfig c args rest mv hmv]
    simp [hta]
  · have hlen : 0 < authConfig.toAddresses.length := List.length_pos.mpr hta
    by_cases hcn : containsNormalized authConfig.toAddresses t = true
    · rw [show signTxToCheck authConfig c args rest = signTxValueCheck authConfig c args rest by
            simp [signTxToCheck, hlen, hto, hcn]]
      rw [signTxValueCheck_unauthorized_iff authConfig c args rest mv hmv]
      simp [hcn]
    · have hcn' : containsNormalized authConfig.toAddresses t = false := by
        simpa using hcn
      constructor
      · intro _
        exact Or.inl ⟨hta, hcn'⟩
      · intro _
        refine ⟨"to address not authorized", ?_⟩
        simp [signTxToCheck, hlen, hto, hcn']

/-- C2. For a request that passed the policy gate (the lookup
returned `entry`), is handled locally (no proxy client), and whose
arguments are structurally valid (`args.Check()` passed, `To` present,
and `entry.maxValue` decodable when set — `mv` is its decoded value):
the request is rejected with `UnauthorizedTransactionError` if and
only if the entry's `ToAddresses` is non-empty and the `to` address is
not a case-insensitive member of it, or the entry's `MaxValue` is set
and the request's value strictly exceeds it. -/
theorem signTransaction_unauthorized_iff (cfg : SignerServiceConfig) (clientName : String) (args : TxArgs) (rest : RestOutcome)
    (entry : AuthConfig) (t : String) (mv : Nat)
    (hlook : getAuthConfigForClient cfg clientName none = Except.ok entry)
    (hto : args.toHex = some t)
    (hmv : entry.maxValue = "" ∨ decodeBig entry.maxValue = some mv) :
    (∃ msg, (signTransaction cfg clientName false args true rest).1 = TxResult.unauthorizedTx msg) ↔
      ((entry.toAddresses ≠ [] ∧ containsNormalized entry.toAddresses t = false) ∨
       (entry.maxValue ≠ "" ∧ mv < args.value)) := by
  rw [show signTransaction cfg clientName false args true rest = signTxToCheck entry clientName args rest by
        simp [signTransaction, hlook]]
  exact signTxToCheck_unauthorized_iff entry clientName args rest t mv hto hmv

/-- Witness for C2 at a concrete input: the policy entry allows only
destination `0xBB`, the request goes to `0xCC`, and the request is
rejected as unauthorized. -/
theorem signTransaction_unauthorized_iff_witness :
    ∃ msg, (signTransaction ⟨[⟨"alice", "k1", 10, 170, ["0xBB"], "0x100"⟩], []⟩ "alice" false ⟨some "0xCC", 5⟩ true RestOutcome.success).1 = TxResult.unauthorizedTx msg :=
  (signTransaction_unauthorized_iff ⟨[⟨"alice", "k1", 10, 170, ["0xBB"], "0x100"⟩], []⟩ "alice" ⟨some "0xCC", 5⟩ RestOutcome.success
    ⟨"alice", "k1", 10, 170, ["0xBB"], "0x100"⟩ "0xCC" 256 rfl rfl (Or.inr (by decide))).mpr
    (Or.inl (by decide))

/-! ## Metric increments (C8) -/

theorem signTxRest_snd (c : String) (r : RestOutcome) :
    ∃ st er, (signTxRest c r).2 = [(c, st, er)] := by
  unfold signTxRest
  split
  · exact ⟨"success", "", rfl⟩
  · exact ⟨"error", restLabel r, rfl⟩

theorem signTxValueCheck_snd (authConfig : AuthConfig) (c : String) (args : TxArgs) (rest : RestOutcome) :
    ∃ st er, (signTxValueCheck authConfig c args rest).2 = [(c, st, er)] := by
  unfold signTxValueCheck
  split
  · cases authConfig.maxValueToInt with
    | none => exact ⟨"error", "", rfl⟩
    | some mv =>
      simp only []
      split
      · exact ⟨"error", "", rfl⟩
      · exact signTxRest_snd c rest
  · exact signTxRest_snd c rest

theorem signTxToCheck_snd (authConfig : AuthConfig) (c : String) (args : TxArgs) (rest : RestOutcome) :
    ∃ st er, (signTxToCheck authConfig c args rest).2 = [(c, st, er)] := by
  unfold signTxToCheck
  split
  · cases args.toHex with
    | none => exact ⟨"error", "", rfl⟩
    | some t =>
      simp only []
      split
      · exact ⟨"error", "", rfl⟩
      · exact signTxValueCheck_snd authConfig c args rest
  · exact signTxValueCheck_snd authConfig c args rest

/-- C8, amended. The outcome counter semantics of
`SignTransaction`: a call that passes the policy gate and is handled
locally (no proxy client) increments the counter exactly once, with
the resolved client name as the `client` label; a call rejected at the
policy gate (`Forbidden`) performs no increment, and a proxied call
performs no increment — because both return before the deferred
`MetricSignTransactionTotal` increment is registered
(service.go:95-111). -/
theorem signTransaction_metric_increments :
    (∀ (cfg : SignerServiceConfig) (clientName : String) (args : TxArgs) (checkOk : Bool) (rest : RestOutcome) (entry : AuthConfig),
      getAuthConfigForClient cfg clientName none = Except.ok entry →
      ∃ st er, (signTransaction cfg clientName false args checkOk rest).2 = [(clientName, st, er)]) ∧
    (∀ (cfg : SignerServiceConfig) (clientName : String) (proxyAvail : Bool) (args : TxArgs) (checkOk : Bool) (rest : RestOutcome) (e : String),
      getAuthConfigForClient cfg clientName none = Except.error e →
      (signTransaction cfg clientName proxyAvail args checkOk rest).2 = []) ∧
    (∀ (cfg : SignerServiceConfig) (clientName : String) (args : TxArgs) (checkOk : Bool) (rest : RestOutcome) (entry : AuthConfig),
      getAuthConfigForClient cfg clientName none = Except.ok entry →
      (signTransaction cfg clientName true args checkOk rest).2 = []) := by
  refine ⟨?_, ?_, ?_⟩
  · intro cfg clientName args checkOk rest entry hlook
    cases checkOk with
    | false => exact ⟨"error", "invalid_transaction", by simp [signTransaction, hlook]⟩
    | true =>
      have h : (signTransaction cfg clientName false args true rest).2 = (signTxToCheck entry clientName args rest).2 := by
        simp [signTransaction, hlook]
      rw [h]
      exact signTxToCheck_snd entry clientName args rest
  · intro cfg clientName proxyAvail args checkOk rest e herr
    simp [signTransaction, herr]
  · intro cfg clientName args checkOk rest entry hlook
    simp [signTransaction, hlook]

/-- Counterexample to C8 as stated: a `SignTransaction` call rejected
at the policy gate (client `"alice"` against an empty policy table)
returns `Forbidden` and performs **zero** counter increments, not
exactly one. -/
theorem signTransaction_forbidden_no_increment :
    signTransaction ⟨[], []⟩ "alice" false ⟨none, 0⟩ true RestOutcome.success = (TxResult.forbidden, []) := rfl

/-- Witness for the amended C8 at a concrete input. -/
theorem signTransaction_metric_increments_witness :
    ∃ st er, (signTransaction ⟨[⟨"bob", "k2", 1, 7, [], ""⟩], []⟩ "bob" false ⟨none, 0⟩ true RestOutcome.success).2 = [("bob", st, er)] :=
  signTransaction_metric_increments.1 ⟨[⟨"bob", "k2", 1, 7, [], ""⟩], []⟩ "bob" ⟨none, 0⟩ true RestOutcome.success ⟨"bob", "k2", 1, 7, [], ""⟩ rfl

/-! ## Block payload authorization (C3, C10) -/

/-- Rewrites only the transaction-specific constraint fields
(`toAddresses`, `maxValue`) of a policy entry, keeping the identity
fields (`clientName`, `fromAddress`) and the block-payload fields
(`chainID`, `keyName`). -/
def mapTxFields (f : AuthConfig → List String) (g : AuthConfig → String) (ac : AuthConfig) : AuthConfig :=
  ⟨ac.clientName, ac.keyName, ac.chainID, ac.fromAddress, f ac, g ac⟩

theorem findAuth_map_txFields (n : String) (a : Option Nat) (f : AuthConfig → List String) (g : AuthConfig → String) (l : List AuthConfig) :
    findAuth n a (l.map (mapTxFields f g)) = Except.map (mapTxFields f g) (findAuth n a l) := by
  induction l with
  | nil => rfl
  | cons ac rest ih =>
    have hcname : (mapTxFields f g ac).clientName = ac.clientName := rfl
    have hskipeq : skipEntry a (mapTxFields f g ac) = skipEntry a ac := by
      cases a <;> rfl
    simp only [List.map_cons, findAuth, hcname, hskipeq]
    by_cases hname : ac.clientName = n
    · by_cases hskip : skipEntry a ac = true
      · simp [hname, hskip, ih]
      · simp [hname, hskip, Except.map]
    · simp [hname, ih]

theorem getAuthConfigForClient_map_txFields (cfg : SignerServiceConfig) (n : String) (a : Option Nat) (f : AuthConfig → List String) (g : AuthConfig → String) :
    getAuthConfigForClient ⟨cfg.auth.map (mapTxFields f g), cfg.proxy⟩ n a =
      Except.map (mapTxFields f g) (getAuthConfigForClient cfg n a) := by
  by_cases h : n = ""
  · simp [getAuthConfigForClient, h, Except.map]
  · simp [getAuthConfigForClient, h, findAuth_map_txFields]

/-- C3. A `SignBlockPayload` request only reaches
`provider.SignDigest` when its `senderAddress` equals the matched
policy entry's `FromAddress` and its `chainID` equals the entry's
`ChainID`; and the path applies no to-address or value checks — the
result is unchanged under arbitrary rewriting of every entry's
`toAddresses` and `maxValue` fields. -/
theorem signBlockPayload_sender_chain_gate :
    (∀ (cfg : SignerServiceConfig) (clientName : String) (proxyAvail : Bool) (args : BlockArgs) (checkOk hashOk signOk : Bool) (entry : AuthConfig),
      getAuthConfigForClient cfg clientName args.sender = Except.ok entry →
      reachedSignDigest (signBlockPayload cfg clientName proxyAvail args checkOk hashOk signOk).1 = true →
      args.sender = some entry.fromAddress ∧ args.chainID = some entry.chainID) ∧
    (∀ (cfg : SignerServiceConfig) (clientName : String) (proxyAvail : Bool) (args : BlockArgs) (checkOk hashOk signOk : Bool) (f : AuthConfig → List String) (g : AuthConfig → String),
      signBlockPayload ⟨cfg.auth.map (mapTxFields f g), cfg.proxy⟩ clientName proxyAvail args checkOk hashOk signOk =
        signBlockPayload cfg clientName proxyAvail args checkOk hashOk signOk) := by
  constructor
  · intro cfg clientName proxyAvail args checkOk hashOk signOk entry hlook hreach
    simp only [signBlockPayload, hlook] at hreach
    cases proxyAvail with
    | true => simp [reachedSignDigest] at hreach
    | false =>
      cases checkOk with
      | false => simp [reachedSignDigest] at hreach
      | true =>
        cases hs : args.sender with
        | none => rw [hs] at hreach; simp [reachedSignDigest] at hreach
        | some a =>
          rw [hs] at hreach
          by_cases ha : a = entry.fromAddress
          · cases hc : args.chainID with
            | none => rw [hc] at hreach; simp [ha, reachedSignDigest] at hreach
            | some cid =>
              rw [hc] at hreach
              by_cases hcid : cid = entry.chainID
              · exact ⟨by rw [ha], by rw [hcid]⟩
              · simp [ha, hcid, reachedSignDigest] at hreach
          · simp [ha, reachedSignDigest] at hreach
  · intro cfg clientName proxyAvail args checkOk hashOk signOk f g
    rw [signBlockPayload, signBlockPayload, getAuthConfigForClient_map_txFields]
    cases hres : getAuthConfigForClient cfg clientName args.sender with
    | error e => simp [Except.map]
    | ok entry => simp [Except.map, mapTxFields]

/-- Witness for C3 at a concrete input: with a policy for `"alice"`
whose `fromAddress` is `170` and `chainID` is `10`, a request signed
locally (`signedPayload`) necessarily carried exactly that sender and
chain id. -/
theorem signBlockPayload_sender_chain_gate_witness :
    BlockArgs.sender ⟨some 170, some 10⟩ = some 170 ∧ BlockArgs.chainID ⟨some 170, some 10⟩ = some 10 :=
  signBlockPayload_sender_chain_gate.1 ⟨[⟨"alice", "k1", 10, 170, [], ""⟩], []⟩ "alice" false ⟨some 170, some 10⟩ true true true
    ⟨"alice", "k1", 10, 170, [], ""⟩ rfl (by decide)

theorem findAuth_some_fromAddress (n : String) (a : Nat) (l : List AuthConfig) (e : AuthConfig) :
    findAuth n (some a) l = Except.ok e → e.fromAddress = a := by
  induction l with
  | nil => intro h; simp [findAuth] at h
  | cons ac rest ih =>
    intro h
    by_cases hname : ac.clientName = n
    · by_cases hskip : a = ac.fromAddress
      · have : (Except.ok ac : Except String AuthConfig) = Except.ok e := by
          simpa [findAuth, hname, skipEntry, hskip] using h
        cases this
        exact hskip.symm
      · have hs : skipEntry (some a) ac = true := by
          simp [skipEntry, hskip]
        rw [findAuth, if_pos hname, if_pos hs] at h
        exact ih h
    · rw [findAuth, if_neg hname] at h
      exact ih h

/-- C10. When `GetAuthConfigForClient` succeeds with a non-nil
`fromAddress`, the returned entry's `FromAddress` equals it;
consequently the explicit sender-mismatch branch of `SignBlockPayload`
(service.go:230-235, `UnauthorizedBlockPayloadError` with message
"unexpected from address") is unreachable on every input — a sender
with no matching policy entry is surfaced as the 403 `Forbidden` from
the lookup instead (and a nil sender dies on the nil dereference, not
in that branch). -/
theorem getAuthConfig_fromAddress_matches :
    (∀ (cfg : SignerServiceConfig) (n : String) (a : Nat) (e : AuthConfig),
      getAuthConfigForClient cfg n (some a) = Except.ok e → e.fromAddress = a) ∧
    (∀ (cfg : SignerServiceConfig) (clientName : String) (proxyAvail : Bool) (args : BlockArgs) (checkOk hashOk signOk : Bool),
      (signBlockPayload cfg clientName proxyAvail args checkOk hashOk signOk).1 ≠ BlockResult.unauthorizedSender) := by
  have hmain : ∀ (cfg : SignerServiceConfig) (n : String) (a : Nat) (e : AuthConfig),
      getAuthConfigForClient cfg n (some a) = Except.ok e → e.fromAddress = a := by
    intro cfg n a e h
    by_cases hn : n = ""
    · simp [getAuthConfigForClient, hn] at h
    · rw [getAuthConfigForClient, if_neg hn] at h
      exact findAuth_some_fromAddress n a cfg.auth e h
  refine ⟨hmain, ?_⟩
  intro cfg clientName proxyAvail args checkOk hashOk signOk
  cases hres : getAuthConfigForClient cfg clientName args.sender with
  | error e => simp [signBlockPayload, hres]
  | ok entry =>
    simp only [signBlockPayload, hres]
    cases proxyAvail with
    | true => simp
    | false =>
      cases checkOk with
      | false => simp
      | true =>
        cases hs : args.sender with
        | none => simp
        | some a =>
          rw [hs] at hres
          have ha : entry.fromAddress = a := hmain cfg clientName a entry hres
          cases hc : args.chainID with
          | none => simp [ha]
          | some cid =>
            by_cases hcid : cid = entry.chainID
            · cases hashOk <;> cases signOk <;> simp [ha, hcid]
            · simp [ha, hcid]

/-- Witness for C10 at a concrete input. -/
theorem getAuthConfig_fromAddress_matches_witness :
    AuthConfig.fromAddress ⟨"alice", "k1", 10, 170, [], ""⟩ = 170 :=
  getAuthConfig_fromAddress_matches.1 ⟨[⟨"alice", "k1", 10, 170, [], ""⟩], []⟩ "alice" 170
    ⟨"alice", "k1", 10, 170, [], ""⟩ rfl

/-! ## Connection registry (`SignerClients`, proxy_ws.go)

A `*rpc.Client` handle is modelled as a `Nat` identifier; pointer
equality is equality of identifiers.  The registry state is the
`wsClients` slice, a `List Nat`.  The outcome of `c.CallContext` on a
given handle is the `behavior` oracle: Go's
`err == nil || errors.As(err, &rpcErr)` test splits outcomes into
protocol-level ones (`ok`, `rpcError`) and transport-level failures
(`transportError`). -/

inductive CallOutcome where
  | ok (v : Nat)
  | rpcError (code : Int) (msg : String)
  | transportError (msg : String)
deriving Repr, DecidableEq

/-- Whether `errors.As(err, &rpcErr)` fails on a non-nil error, i.e.
the failure is transport-level. -/
def CallOutcome.isTransport : CallOutcome → Bool
  | CallOutcome.transportError _ => true
  | _ => false

inductive CallResult where
  | value (v : Nat)
  | rpcErr (code : Int) (msg : String)
  | noClients
deriving Repr, DecidableEq

/-- A protocol-level outcome returned to the caller as-is
(proxy_ws.go:51-52): the successful value, or the RPC error value
unchanged. -/
def protocolResult : CallOutcome → CallResult
  | CallOutcome.ok v => CallResult.value v
  | CallOutcome.rpcError code msg => CallResult.rpcErr code msg
  | CallOutcome.transportError _ => CallResult.noClients

/-- Model of `SignerClients.removeClient` (proxy_ws.go:29-40): scans the slice
for the first entry pointer-equal to `c`; if found, splices it out and
closes the connection (the returned flag records that a close
happened); if absent, falls through and does nothing. -/
def removeClient : List Nat → Nat → List Nat × Bool
  | [], _ => ([], false)
  | x :: xs, c =>
    if x = c then (xs, true)
    else
      let out := removeClient xs c
      (x :: out.1, out.2)

/-- The failover loop of `SignerClients.Call` (proxy_ws.go:48-58),
iterating over the snapshot while threading the shared registry.
Returns the call result, the final registry, and the handles actually
tried, in order. -/
def callLoop (b : Nat → CallOutcome) : List Nat → List Nat → CallResult × List Nat × List Nat
  | [], reg => (CallResult.noClients, reg, [])
  | c :: rest, reg =>
    match b c with
    | CallOutcome.transportError _ =>
      let out := callLoop b rest (removeClient reg c).1
      (out.1, out.2.1, c :: out.2.2)
    | o => (protocolResult o, reg, [c])

/-- Model of `SignerClients.Call` (proxy_ws.go:42-61): takes a snapshot
(`getCopy`) of the registry, returns `NoClientsAvailable` on an empty
snapshot, and otherwise runs the failover loop; an exhausted snapshot
also yields `NoClientsAvailable`. -/
def signerCall (b : Nat → CallOutcome) (reg : List Nat) : CallResult × List Nat × List Nat :=
  if reg.length = 0 then (CallResult.noClients, reg, [])
  else callLoop b reg reg

theorem removeClient_head (c : Nat) (rest : List Nat) : removeClient (c :: rest) c = (rest, true) := by
  simp [removeClient]

theorem callLoop_cons_transport (b : Nat → CallOutcome) (c : Nat) (rest : List Nat) (m : String)
    (hb : b c = CallOutcome.transportError m) :
    callLoop b (c :: rest) (c :: rest) =
      ((callLoop b rest rest).1, (callLoop b rest rest).2.1, c :: (callLoop b rest rest).2.2) := by
  simp [callLoop, hb, removeClient_head]

theorem callLoop_cons_protocol (b : Nat → CallOutcome) (c : Nat) (rest reg : List Nat)
    (hb : (b c).isTransport = false) :
    callLoop b (c :: rest) reg = (protocolResult (b c), reg, [c]) := by
  cases hbc : b c with
  | ok v => simp [callLoop, hbc]
  | rpcError code msg => simp [callLoop, hbc]
  | transportError m => rw [hbc] at hb; simp [CallOutcome.isTransport] at hb

/-- The failover loop on a self-snapshot: if the first `K` handles of
the snapshot fail at the transport level and the `(K+1)`-th yields a
protocol-level outcome, the loop returns that outcome, the registry
retains exactly the handles from position `K` on, and exactly the
first `K+1` handles were tried. -/
theorem callLoop_first_protocol (b : Nat → CallOutcome) :
    ∀ (K : Nat) (l : List Nat) (hK : K < l.length),
      (∀ i (hi : i < K), (b (l.get ⟨i, Nat.lt_trans hi hK⟩)).isTransport = true) →
      (b (l.get ⟨K, hK⟩)).isTransport = false →
      callLoop b l l = (protocolResult (b (l.get ⟨K, hK⟩)), l.drop K, l.take (K + 1)) := by
  intro K
  induction K with
  | zero =>
    intro l hK hfail hprot
    cases l with
    | nil => simp at hK
    | cons c rest =>
      rw [callLoop_cons_protocol b c rest (c :: rest) hprot]
      simp
  | succ K ih =>
    intro l hK hfail hprot
    cases l with
    | nil => simp at hK
    | cons c rest =>
      have hc : (b c).isTransport = true := hfail 0 (Nat.succ_pos K)
      cases hbc : b c with
      | ok v => rw [hbc] at hc; simp [CallOutcome.isTransport] at hc
      | rpcError code msg => rw [hbc] at hc; simp [CallOutcome.isTransport] at hc
      | transportError m =>
        have hK' : K < rest.length := Nat.lt_of_succ_lt_succ hK
        have hrec := ih rest hK' (fun i hi => hfail (i + 1) (Nat.succ_lt_succ hi)) hprot
        rw [callLoop_cons_transport b c rest m hbc, hrec]
        simp

/-- The failover loop on a self-snapshot where every handle fails at
the transport level: `NoClientsAvailable`, empty registry, everything
tried. -/
theorem callLoop_all_transport (b : Nat → CallOutcome) :
    ∀ l : List Nat, (∀ c ∈ l, (b c).isTransport = true) →
      callLoop b l l = (CallResult.noClients, [], l) := by
  intro l
  induction l with
  | nil => intro _; rfl
  | cons c rest ih =>
    intro hall
    have hc : (b c).isTransport = true := hall c (List.mem_cons_self c rest)
    cases hbc : b c with
    | ok v => rw [hbc] at hc; simp [CallOutcome.isTransport] at hc
    | rpcError code msg => rw [hbc] at hc; simp [CallOutcome.isTransport] at hc
    | transportError m =>
      rw [callLoop_cons_transport b c rest m hbc,
          ih (fun d hd => hall d (List.mem_cons_of_mem c hd))]

/-- C4. `SignerClients.Call` failover: an empty snapshot returns
`NoClientsAvailable` immediately; if the first `K` handles of the
snapshot fail at the transport level and the `(K+1)`-th yields a
protocol-level response, exactly those first `K` handles are removed
from the registry (the final registry is the snapshot from position
`K` on) and the `(K+1)`-th response is returned; if all handles fail
at the transport level, all are removed and `NoClientsAvailable` is
returned. -/
theorem signerCall_failover :
    (∀ b : Nat → CallOutcome, signerCall b [] = (CallResult.noClients, [], [])) ∧
    (∀ (b : Nat → CallOutcome) (l : List Nat) (K : Nat) (hK : K < l.length),
      (∀ i (hi : i < K), (b (l.get ⟨i, Nat.lt_trans hi hK⟩)).isTransport = true) →
      (b (l.get ⟨K, hK⟩)).isTransport = false →
      signerCall b l = (protocolResult (b (l.get ⟨K, hK⟩)), l.drop K, l.take (K + 1))) ∧
    (∀ (b : Nat → CallOutcome) (l : List Nat), (∀ c ∈ l, (b c).isTransport = true) →
      signerCall b l = (CallResult.noClients, [], l)) := by
  refine ⟨fun b => rfl, ?_, ?_⟩
  · intro b l K hK hfail hprot
    have hne : ¬ l.length = 0 := by
      intro h0
      rw [h0] at hK
      exact Nat.not_lt_zero K hK
    rw [signerCall, if_neg hne]
    exact callLoop_first_protocol b K l hK hfail hprot
  · intro b l hall
    cases l with
    | nil => rfl
    | cons c rest =>
      rw [signerCall, if_neg (by simp)]
      exact callLoop_all_transport b (c :: rest) hall

/-- Witness for C4 at a concrete input: handles `[3, 5, 9]`, where `3`
fails at the transport level and `5` responds; `3` is removed, `5`'s
response is returned, `9` is never tried. -/
theorem signerCall_failover_witness :
    signerCall
      (fun c => if c = 3 then CallOutcome.transportError "broken" else CallOutcome.ok (c + 100))
      [3, 5, 9] = (CallResult.value 105, [5, 9], [3, 5]) :=
  signerCall_failover.2.1
    (fun c => if c = 3 then CallOutcome.transportError "broken" else CallOutcome.ok (c + 100))
    [3, 5, 9] 1 (by decide)
    (fun i hi => by
      have h0 : i = 0 := Nat.lt_one_iff.mp hi
      subst h0
      rfl)
    (by decide)

/-- C5. A handle that yields a protocol-level outcome — success or
an error satisfying the `rpc.Error` interface — ends the loop
immediately: the outcome is returned as-is, the registry is completely
unchanged (in particular the handle is not removed), and no subsequent
handle in the snapshot is tried; and an RPC-level error value maps to
the caller unchanged. -/
theorem signerCall_protocol_stops :
    (∀ (b : Nat → CallOutcome) (c : Nat) (rest reg : List Nat),
      (b c).isTransport = false →
      callLoop b (c :: rest) reg = (protocolResult (b c), reg, [c])) ∧
    (∀ (code : Int) (msg : String),
      protocolResult (CallOutcome.rpcError code msg) = CallResult.rpcErr code msg) := by
  exact ⟨fun b c rest reg hb => callLoop_cons_protocol b c rest reg hb, fun code msg => rfl⟩

/-- Witness for C5 at a concrete input: handle `7` responds with an
RPC-level error; the error propagates as-is, `7` stays in the
registry, and handle `8` is never tried. -/
theorem signerCall_protocol_stops_witness :
    callLoop (fun _ => CallOutcome.rpcError 403 "forbidden") [7, 8] [7, 8] =
      (CallResult.rpcErr 403 "forbidden", [7, 8], [7]) :=
  signerCall_protocol_stops.1 (fun _ => CallOutcome.rpcError 403 "forbidden") 7 [8] [7, 8] (by decide)

/-! ## Removal idempotence (C6) -/

theorem removeClient_not_mem (l : List Nat) (c : Nat) (h : c ∉ l) :
    removeClient l c = (l, false) := by
  induction l with
  | nil => rfl
  | cons x xs ih =>
    have hxc : ¬ x = c := fun he => h (he ▸ List.mem_cons_self x xs)
    have hxs : c ∉ xs := fun hm => h (List.mem_cons_of_mem x hm)
    simp [removeClient, hxc, ih hxs]

theorem removeClient_fst_eq_erase (l : List Nat) (c : Nat) :
    (removeClient l c).1 = l.erase c := by
  induction l with
  | nil => rfl
  | cons x xs ih =>
    by_cases hxc : x = c
    · simp [removeClient, hxc, List.erase_cons_head]
    · have hbeq : (x == c) = false := by simp [hxc]
      simp [removeClient, hxc, List.erase_cons, hbeq, ih]

theorem removeClient_snd_eq_mem (l : List Nat) (c : Nat) :
    (removeClient l c).2 = decide (c ∈ l) := by
  induction l with
  | nil => rfl
  | cons x xs ih =>
    by_cases hxc : x = c
    · simp [removeClient, hxc]
    · simp [removeClient, hxc, ih, Ne.symm hxc]

theorem removeClient_nodup (l : List Nat) (c : Nat) (h : l.Nodup) :
    (removeClient l c).1.Nodup := by
  rw [removeClient_fst_eq_erase]
  exact h.erase c

/-- A sequence of `removeClient` calls applied to a registry: returns
the final registry and the handles that were closed, in order (each
call closes the handle it actually removed, if any). -/
def runRemovals : List Nat → List Nat → List Nat × List Nat
  | reg, [] => (reg, [])
  | reg, c :: cs =>
    let step := removeClient reg c
    let out := runRemovals step.1 cs
    (out.1, (if step.2 then [c] else []) ++ out.2)

theorem runRemovals_closed_not_mem (cs : List Nat) :
    ∀ (reg : List Nat) (h : Nat), h ∉ reg → h ∉ (runRemovals reg cs).2 := by
  induction cs with
  | nil => intro reg h hm; simp [runRemovals]
  | cons c cs ih =>
    intro reg h hm
    have hm' : h ∉ (removeClient reg c).1 := by
      rw [removeClient_fst_eq_erase]
      intro hmem'
      exact hm (List.mem_of_mem_erase hmem')
    rcases Bool.eq_false_or_eq_true (removeClient reg c).2 with hb | hb
    · have hrw : (runRemovals reg (c :: cs)).2 = c :: (runRemovals (removeClient reg c).1 cs).2 := by
        rw [runRemovals]
        simp [hb]
      rw [hrw]
      intro hmem
      have hcm : c ∈ reg :=
        of_decide_eq_true (by rw [← removeClient_snd_eq_mem]; exact hb)
      rcases List.mem_cons.mp hmem with he | hr
      · subst he
        exact hm hcm
      · exact ih (removeClient reg c).1 h hm' hr
    · have hrw : (runRemovals reg (c :: cs)).2 = (runRemovals (removeClient reg c).1 cs).2 := by
        rw [runRemovals]
        simp [hb]
      rw [hrw]
      exact ih (removeClient reg c).1 h hm'

theorem runRemovals_count_le_one (cs : List Nat) :
    ∀ (reg : List Nat), reg.Nodup → ∀ h : Nat, ((runRemovals reg cs).2.count h) ≤ 1 := by
  induction cs with
  | nil => intro reg _ h; simp [runRemovals]
  | cons c cs ih =>
    intro reg hnd h
    have hnd' : (removeClient reg c).1.Nodup := removeClient_nodup reg c hnd
    rcases Bool.eq_false_or_eq_true (removeClient reg c).2 with hb | hb
    · have hrw : (runRemovals reg (c :: cs)).2 = c :: (runRemovals (removeClient reg c).1 cs).2 := by
        rw [runRemovals]
        simp [hb]
      rw [hrw]
      by_cases hhc : h = c
      · subst hhc
        have hone : List.count h reg ≤ 1 := List.nodup_iff_count_le_one.mp hnd h
        have hnotm : h ∉ (removeClient reg h).1 := by
          rw [removeClient_fst_eq_erase]
          intro hmem
          have hpos : 0 < List.count h (reg.erase h) := List.count_pos_iff.mpr hmem
          have hcnt : List.count h (reg.erase h) = List.count h reg - 1 :=
            List.count_erase_self h reg
          rw [hcnt] at hpos
          omega
        have hzero : List.count h (runRemovals (removeClient reg h).1 cs).2 = 0 :=
          List.count_eq_zero.mpr (runRemovals_closed_not_mem cs (removeClient reg h).1 h hnotm)
        simp [List.count_cons, hzero]
      · have hrec : ((runRemovals (removeClient reg c).1 cs).2.count h) ≤ 1 := ih _ hnd' h
        simpa [List.count_cons, hhc] using hrec
    · have hrw : (runRemovals reg (c :: cs)).2 = (runRemovals (removeClient reg c).1 cs).2 := by
        rw [runRemovals]
        simp [hb]
      rw [hrw]
      exact ih _ hnd' h

/-- One registry operation: a registration (`ServeSigner` →
`AddClient`) or a quarantine removal. -/
inductive RegOp where
  | add (c : Nat)
  | remove (c : Nat)
deriving Repr, DecidableEq

/-- Modelled from the spec: `AddClient` / §4.3 `Register` — "inserts
under lock; always succeeds; duplicate registration of the same handle
is a no-op or refresh (idempotent)".  The body of the slice-based
`AddClient` is not among the provided sources (only its caller
`ServeSigner`, proxy.go:43-51, is), so registration is modelled from
the spec's words: appending the handle when absent, a no-op when
already present. -/
def addClient (l : List Nat) (c : Nat) : List Nat :=
  if c ∈ l then l else l ++ [c]

/-- A sequence of registry operations applied in order. -/
def runOps : List Nat → List RegOp → List Nat
  | reg, [] => reg
  | reg, RegOp.add c :: ops => runOps (addClient reg c) ops
  | reg, RegOp.remove c :: ops => runOps (removeClient reg c).1 ops

theorem addClient_nodup (l : List Nat) (c : Nat) (h : l.Nodup) : (addClient l c).Nodup := by
  unfold addClient
  split
  · exact h
  · rename_i hmem
    rw [List.nodup_append]
    exact ⟨h, List.nodup_singleton c, by
      intro a ha hb
      simp at hb
      subst hb
      exact hmem ha⟩

theorem runOps_nodup (ops : List RegOp) :
    ∀ reg : List Nat, reg.Nodup → (runOps reg ops).Nodup := by
  induction ops with
  | nil => intro reg h; exact h
  | cons op ops ih =>
    intro reg h
    cases op with
    | add c => exact ih (addClient reg c) (addClient_nodup reg c h)
    | remove c => exact ih (removeClient reg c).1 (removeClient_nodup reg c h)

/-- C6. Removal is idempotent and closes at most once: removing a
handle absent from the registry is a no-op (no close); removing a
present handle erases exactly its first occurrence, leaving all other
handles and their order unchanged (`List.erase` semantics); across any
sequence of `removeClient` calls on a duplicate-free registry, each
distinct handle is closed at most once; and every registry reachable
from the empty one by registrations and removals is duplicate-free (so
the duplicate-free hypothesis holds for all reachable states). -/
theorem removeClient_idempotent :
    (∀ (l : List Nat) (c : Nat), c ∉ l → removeClient l c = (l, false)) ∧
    (∀ (l : List Nat) (c : Nat), (removeClient l c).1 = l.erase c) ∧
    (∀ (l cs : List Nat), l.Nodup → ∀ h : Nat, ((runRemovals l cs).2.count h) ≤ 1) ∧
    (∀ ops : List RegOp, (runOps [] ops).Nodup) :=
  ⟨removeClient_not_mem,
   removeClient_fst_eq_erase,
   fun l cs hnd h => runRemovals_count_le_one cs l hnd h,
   fun ops => runOps_nodup ops [] List.nodup_nil⟩

/-- Witness for C6 at a concrete input: removing absent handle `5`
from `[1, 2]` is a no-op with no close, and a double removal of `1`
closes it only once. -/
theorem removeClient_idempotent_witness :
    removeClient [1, 2] 5 = ([1, 2], false) ∧ (List.count 1 (runRemovals [1, 2] [1, 1]).2) ≤ 1 :=
  ⟨removeClient_idempotent.1 [1, 2] 5 (by decide),
   removeClient_idempotent.2.2.1 [1, 2] [1, 1] (by decide) 1⟩

/-! ## Reconnecting proxy client (`connectWithBackoff`, proxy.go:152-193)

`connectWithBackoff` wraps the dial in `backoff.Retry`, configured
with `b.MaxInterval = connRetryMaxBackoff` (5 minutes) and
`WithMaxElapsedTime(0)` (no overall deadline), and passes a `notify`
hook that logs every failed attempt (proxy.go:166-178).  The retry
loop itself lives in the third-party `cenkalti/backoff` dependency,
which is not part of this repository's sources; it is modelled from
the spec's words (§4.4): "On failure, wait using exponential backoff
(initial interval small, doubling, capped at a configured maximum
interval), with unbounded retry count and no overall deadline; invoke
a notification hook on every failed attempt before retrying."

`dial i` is the outcome of the `i`-th dial attempt (indices from 0).
The `fuel` argument only bounds the depth of the shallow embedding of
the unbounded loop; every theorem below holds for every sufficiently
large fuel, for every number `M` of initial failures — which is the
unbounded-retry property. -/

/-- One observable event of the retry loop. -/
inductive RetryEvent where
  | failedAttempt (i : Nat) (wait : Nat)
  | connected (i : Nat)
deriving Repr, DecidableEq

/-- Modelled from the spec: the next backoff interval doubles and is
capped at the configured maximum. -/
def nextIntervalVal (cap cur : Nat) : Nat := min (2 * cur) cap

/-- Modelled from the spec: the retry loop — attempt the dial; on
success stop; on failure emit the notification (with the wait it is
about to sleep) and retry with the doubled-and-capped interval. -/
def retryLoop (dial : Nat → Bool) (cap : Nat) : Nat → Nat → Nat → List RetryEvent × Option Nat
  | _, _, 0 => ([], none)
  | i, cur, fuel + 1 =>
    if dial i then ([RetryEvent.connected i], some i)
    else
      (RetryEvent.failedAttempt i cur :: (retryLoop dial cap (i + 1) (nextIntervalVal cap cur) fuel).1,
       (retryLoop dial cap (i + 1) (nextIntervalVal cap cur) fuel).2)

/-- The connection state `connectWithBackoff` leaves behind on
success: the dial attempt that succeeded, and the APIs registered on
the fresh connection (proxy.go:183-189, `RegisterName` for each
API). -/
structure ConnModel where
  connId : Nat
  registered : List String
deriving Repr, DecidableEq

/-- Model of `ProxyClient.connectWithBackoff` (proxy.go:152-193): dial with
retries, then register the client's APIs on the connection. -/
def connectWithBackoff (dial : Nat → Bool) (apis : List String) (initI cap fuel : Nat) : List RetryEvent × Option ConnModel :=
  let out := retryLoop dial cap 0 initI fuel
  (out.1, out.2.map (fun i => ⟨i, apis⟩))

/-- The interval after `k` doublings of `cur`, capped. -/
def waitFrom (cap cur : Nat) : Nat → Nat
  | 0 => cur
  | k + 1 => waitFrom cap (nextIntervalVal cap cur) k

theorem waitFrom_closed (cap : Nat) : ∀ (k cur : Nat), cur ≤ cap →
    waitFrom cap cur k = min (2 ^ k * cur) cap := by
  intro k
  induction k with
  | zero =>
    intro cur hc
    simp [waitFrom, Nat.min_eq_left hc]
  | succ k ih =>
    intro cur hc
    rw [waitFrom, ih (nextIntervalVal cap cur) (Nat.min_le_right _ _)]
    rcases Nat.le_total (2 * cur) cap with h2 | h2
    · rw [nextIntervalVal, Nat.min_eq_left h2]
      congr 1
      ring
    · rw [nextIntervalVal, Nat.min_eq_right h2]
      have hpow : 0 < 2 ^ k := Nat.pow_pos (by norm_num)
      have hcapmul : cap ≤ 2 ^ k * cap := Nat.le_mul_of_pos_left cap hpow
      rw [Nat.min_eq_right hcapmul]
      have hle : cap ≤ 2 ^ (k + 1) * cur := by
        calc cap ≤ 2 * cur := h2
        _ ≤ 2 ^ (k + 1) * cur := by
            have h1 : 2 ≤ 2 ^ (k + 1) := by
              calc 2 = 2 ^ 1 := by norm_num
              _ ≤ 2 ^ (k + 1) := Nat.pow_le_pow_right (by norm_num) (Nat.succ_le_succ (Nat.zero_le k))
            exact Nat.mul_le_mul_right cur h1
      rw [Nat.min_eq_right hle]

theorem retryLoop_fails_then_connects (M cap : Nat) :
    ∀ (i cur fuel : Nat), i ≤ M → M - i < fuel →
      retryLoop (fun k => decide (M ≤ k)) cap i cur fuel =
        ((List.range (M - i)).map (fun k => RetryEvent.failedAttempt (i + k) (waitFrom cap cur k)) ++
           [RetryEvent.connected M], some M) := by
  intro i cur fuel
  induction fuel generalizing i cur with
  | zero => intro _ hf; exact absurd hf (Nat.not_lt_zero _)
  | succ fuel ih =>
    intro hiM hf
    rcases Nat.lt_or_ge i M with hlt | hge
    · have hdial : (decide (M ≤ i)) = false := by
        simp [Nat.not_le.mpr hlt]
      have hrec := ih (i + 1) (nextIntervalVal cap cur) hlt (by omega)
      have hfun : ((fun k => RetryEvent.failedAttempt (i + k) (waitFrom cap cur k)) ∘ Nat.succ) =
          (fun k => RetryEvent.failedAttempt ((i + 1) + k) (waitFrom cap (nextIntervalVal cap cur) k)) := by
        funext k
        show RetryEvent.failedAttempt (i + (k + 1)) (waitFrom cap cur (k + 1)) = _
        rw [show i + (k + 1) = (i + 1) + k by omega]
        rfl
      have hrange : M - i = (M - (i + 1)) + 1 := by omega
      rw [retryLoop]
      simp only [hdial, Bool.false_eq_true, if_false]
      rw [hrec, hrange, List.range_succ_eq_map, List.map_cons, List.map_map, hfun]
      simp [waitFrom]
    · have hieq : i = M := Nat.le_antisymm hiM hge
      subst hieq
      rw [retryLoop]
      simp [Nat.sub_self]

/-- C7. For a dialer that fails the first `M` attempts and
succeeds on attempt `M+1`: `connectWithBackoff` performs exactly `M+1`
dial attempts — `M` failures, each invoking the notification hook with
the wait it is about to sleep, then the successful connection — the
waits form the doubling sequence `min (2^k * initial) cap`, which is
non-decreasing and never exceeds the configured maximum backoff
interval, and the successful connection carries all of the client's
APIs registered on it.  The statement holds for **every** `M` (with
fuel, an artifact of embedding the unbounded loop, merely large
enough), which is the unbounded-retry/no-deadline property:
`WithMaxElapsedTime(0)` imposes no bound on `M`. -/
theorem connectWithBackoff_spec (M initI cap fuel : Nat) (apis : List String)
    (hinit : initI ≤ cap) (hfuel : M < fuel) :
    (connectWithBackoff (fun k => decide (M ≤ k)) apis initI cap fuel =
      ((List.range M).map (fun k => RetryEvent.failedAttempt k (min (2 ^ k * initI) cap)) ++
         [RetryEvent.connected M], some ⟨M, apis⟩)) ∧
    (∀ j k, j ≤ k → min (2 ^ j * initI) cap ≤ min (2 ^ k * initI) cap) ∧
    (∀ k, min (2 ^ k * initI) cap ≤ cap) := by
  refine ⟨?_, ?_, fun k => Nat.min_le_right _ _⟩
  · have hloop := retryLoop_fails_then_connects M cap 0 initI fuel (Nat.zero_le M) (by omega)
    have hfun : (fun k => RetryEvent.failedAttempt (0 + k) (waitFrom cap initI k)) =
        (fun k => RetryEvent.failedAttempt k (min (2 ^ k * initI) cap)) := by
      funext k
      rw [waitFrom_closed cap k initI hinit, Nat.zero_add]
    rw [connectWithBackoff, hloop]
    rw [Nat.sub_zero] at hloop ⊢
    rw [hfun]
    rfl
  · intro j k hjk
    exact min_le_min (Nat.mul_le_mul_right initI (Nat.pow_le_pow_right (by norm_num) hjk)) (le_refl cap)

/-- Witness for C7 at a concrete input: `M = 2` failures with initial
interval 1 and cap 4 — two notified failures with waits 1 then 2, then
the connection on attempt 3, with the API list registered. -/
theorem connectWithBackoff_spec_witness :
    connectWithBackoff (fun k => decide (2 ≤ k)) ["eth"] 1 4 4 =
      ([RetryEvent.failedAttempt 0 1, RetryEvent.failedAttempt 1 2, RetryEvent.connected 2], some ⟨2, ["eth"]⟩) := by
  rw [(connectWithBackoff_spec 2 1 4 4 ["eth"] (by norm_num) (by norm_num)).1]
  rfl

/-! ## Startup validation (`ReadConfig`, config.go:42-73)

The post-unmarshal validation loops of `ReadConfig`, modelled after
the source: for each auth entry, *for each `toAddress`*, the address
must `hexutil.Decode` and — inside that same inner loop — a non-empty
`maxValue` must `hexutil.DecodeBig`; then each proxy endpoint must
`url.Parse` with a `ws` or `wss` scheme.  The scheme extraction
mirrors Go `net/url`'s `getScheme` (lowercased scheme; a leading `:`
is a parse error; a non-scheme character means no scheme). -/

def isSchemeStartChar (c : Char) : Bool :=
  ('a' ≤ c && c ≤ 'z') || ('A' ≤ c && c ≤ 'Z')

def isSchemeExtraChar (c : Char) : Bool :=
  ('0' ≤ c && c ≤ '9') || c == '+' || c == '-' || c == '.'

def getSchemeAux : List Char → List Char → Except String String
  | _, [] => Except.ok ""
  | acc, c :: rest =>
    if c == ':' then
      if acc.isEmpty then Except.error "missing protocol scheme"
      else Except.ok ⟨acc.map asciiLower⟩
    else if isSchemeStartChar c then getSchemeAux (acc ++ [c]) rest
    else if isSchemeExtraChar c && !acc.isEmpty then getSchemeAux (acc ++ [c]) rest
    else Except.ok ""

/-- Scheme field of `url.Parse` as `ReadConfig` consumes it. -/
def urlScheme (s : String) : Except String String :=
  getSchemeAux [] s.data

/-- The inner loop of `ReadConfig`'s auth validation
(config.go:52-61): per `toAddress`, decode it, and (nested inside this
loop) check a non-empty `maxValue` decodes; the error message for a
bad `maxValue` interpolates the *toAddress* (the source does too). -/
def validateToAddrs (maxValue : String) : List String → Except String Unit
  | [] => Except.ok ()
  | t :: rest =>
    if (decodeHex t).isNone then
      Except.error ("invalid toAddress " ++ t ++ " in auth config")
    else if maxValue != "" && (decodeBig maxValue).isNone then
      Except.error ("invalid maxValue " ++ t ++ " in auth config")
    else validateToAddrs maxValue rest

def validateAuth : List AuthConfig → Except String Unit
  | [] => Except.ok ()
  | ac :: rest =>
    match validateToAddrs ac.maxValue ac.toAddresses with
    | Except.error e => Except.error e
    | Except.ok _ => validateAuth rest

/-- The proxy loop of `ReadConfig` (config.go:63-71). -/
def validateProxy : List ProxyConfig → Except String Unit
  | [] => Except.ok ()
  | pc :: rest =>
    match urlScheme pc.proxyEndpoint with
    | Except.error _ => Except.error ("invalid proxyEndpoint " ++ pc.proxyEndpoint)
    | Except.ok sch =>
      if sch != "ws" && sch != "wss" then
        Except.error ("invalid proxyEndpoint " ++ pc.proxyEndpoint ++ ": must have ws/wss scheme")
      else validateProxy rest

/-- The validation `ReadConfig` performs after YAML unmarshalling
(config.go:51-71): auth loop, then proxy loop. -/
def readConfigChecks (cfg : SignerServiceConfig) : Except String Unit :=
  match validateAuth cfg.auth with
  | Except.error e => Except.error e
  | Except.ok _ => validateProxy cfg.proxy

/-- C9, refuting evidence. An auth entry with an *empty*
`toAddresses` list and the undecodable `maxValue` `"0xzz"` passes
`ReadConfig` unrejected, because the `maxValue` check is nested inside
the per-`toAddress` loop (config.go:52-61) and that loop never runs;
`decodeBig "0xzz" = none` shows the claim's premise holds, and
`MaxValueToInt` on the same entry is the modelled panic (`none`), the
runtime failure the startup check was meant to prevent.  The same
`maxValue` *is* rejected as soon as the entry has one `toAddress` —
with an error message that interpolates the toAddress instead of the
maxValue — exhibiting the intended-but-misplaced check. -/
theorem readConfig_maxValue_gap :
    readConfigChecks ⟨[⟨"batcher", "k", 10, 1, [], "0xzz"⟩], []⟩ = Except.ok () ∧
    decodeBig "0xzz" = none ∧
    AuthConfig.maxValueToInt ⟨"batcher", "k", 10, 1, [], "0xzz"⟩ = none ∧
    readConfigChecks ⟨[⟨"batcher", "k", 10, 1, ["0xBB"], "0xzz"⟩], []⟩ =
      Except.error "invalid maxValue 0xBB in auth config" :=
  ⟨rfl, rfl, rfl, rfl⟩

end OpSigner
